import Mathlib

/-!
Shallow embedding of `dedup.cpp` (removes PCR duplicate read pairs from
paired-end FASTQ files).

Streams are modelled as lists of lines (each C++ `gzgets` call consumes one
line; real lines carry their trailing newline, which the model treats as part
of the opaque line string).  The SHA-256 digest is an external OpenSSL
routine, absent from the sources; the spec treats the digest as an opaque
key with negligible collision probability, so the pipeline is parameterised
over an arbitrary digest function `d : String → String`.  The Bloom filter
lives in `bloom_filter.hpp`, also absent from the sources; its containment
test is likewise a parameter `bc`, and its sizing is modelled from the spec.
-/

/-- FASTQ record: four text lines {header, sequence, separator, quality};
mirrors `struct FastqRecord` (dedup.cpp lines 39-41). -/
structure FastqRecord where
  id : String
  seq : String
  plus : String
  qual : String
deriving DecidableEq, Repr

/-- The C++ default-constructed record: all four strings empty
(`FastqRecord r1, r2, r3;` at dedup.cpp line 207). -/
def FastqRecord.empty : FastqRecord := ⟨"", "", "", ""⟩

/-- Mirrors `read_fastq_record` (dedup.cpp lines 46-57): four sequential
`gzgets` calls.  Each successfully read line is stored into the record
before the next read is attempted, so a failed read in the middle leaves
the earlier fields already overwritten — exactly as the C++ in-out
parameter behaves.  Returns (success, record, remaining lines). -/
def read_fastq_record : List String → FastqRecord → Bool × FastqRecord × List String
  | [], r => (false, r, [])
  | [l1], r => (false, { r with id := l1 }, [])
  | [l1, l2], r => (false, { r with id := l1, seq := l2 }, [])
  | [l1, l2, l3], r => (false, { r with id := l1, seq := l2, plus := l3 }, [])
  | l1 :: l2 :: l3 :: l4 :: rest, r =>
    (true, { id := l1, seq := l2, plus := l3, qual := l4 }, rest)

/-- Mirrors `count_fastq_records` (dedup.cpp lines 72-80): count every line
with `gzgets`, then integer-divide by 4 (discarding any incomplete trailing
quartet). -/
def count_fastq_records (lines : List String) : Nat :=
  lines.length / 4

/-- Mirrors `extract_barcode_from_name` (dedup.cpp lines 85-91):
`main_part` is the header up to the first space (`find(' ')` / `substr`);
the barcode is the substring after the last `:` in `main_part`
(`rfind(':')`), or the empty string when no colon exists. -/
def extract_barcode_from_name (header : String) : String :=
  let main_part : List Char := header.data.takeWhile (fun c => c ≠ ' ')
  if ':' ∈ main_part then
    ((main_part.reverse.takeWhile (fun c => c ≠ ':')).reverse).asString
  else ""

/-- The three backends selectable on the command line
(dedup.cpp lines 132-134 and 145-147). -/
inductive Backend
  | memory
  | bloom
  | sqlite
deriving DecidableEq, Repr

/-- Run configuration: `barcode_in_name` is the `--barcode-in-name` flag,
`has_index` models `!index_file.empty()` (an `--index` stream was given),
`backend` is the selected store (dedup.cpp lines 123-125). -/
structure Config where
  barcode_in_name : Bool
  has_index : Bool
  backend : Backend
deriving DecidableEq, Repr

/-- The hard-coded false-positive probability `0.001`
(dedup.cpp line 201), as an exact rational. -/
def false_positive_probability_default : Rat := 1 / 1000

/-- Mirrors `bloom_parameters` as configured at dedup.cpp lines 199-202:
projected element count (from the pre-scan) and target false-positive
probability. -/
structure BloomParameters where
  projected_element_count : Nat
  false_positive_probability : Rat
deriving DecidableEq, Repr

/-- Internal sizing of the probabilistic store, fixed at construction. -/
structure BloomSizing where
  projected_element_count : Nat
  false_positive_probability : Rat
deriving DecidableEq, Repr

/-- Modelled from the spec: `bloom_filter.hpp`'s
`compute_optimal_parameters` (called once at dedup.cpp line 202) derives the
internal sizing (bit-array length, hash-function count) deterministically
from {projected_element_count, false_positive_probability}; the numeric
formula lives in `bloom_filter.hpp`, which is absent from the sources, so
the sizing is represented by the pair of inputs that determine it. -/
def compute_optimal_parameters (p : BloomParameters) : BloomSizing :=
  { projected_element_count := p.projected_element_count,
    false_positive_probability := p.false_positive_probability }

/-- SQLite result codes used by `SQLiteStore::is_unique`
(values from sqlite3.h). -/
def SQLITE_OK : Nat := 0

/-- SQLite result code: the step completed, i.e. the INSERT succeeded. -/
def SQLITE_DONE : Nat := 101

/-- SQLite result code: constraint violation (the expected signal when the
fingerprint is already present, `hash` being the primary key). -/
def SQLITE_CONSTRAINT : Nat := 19

/-- SQLite result code: an unexpected disk I/O error. -/
def SQLITE_IOERR : Nat := 10

namespace SQLiteStore

/-- Mirrors `SQLiteStore::is_unique` (dedup.cpp lines 106-116) at the level
of the SQLite return codes it consumes: if `sqlite3_prepare_v2` does not
return `SQLITE_OK`, a `std::runtime_error` is thrown (modelled as
`Except.error`; it propagates out of `main`, terminating the process with a
nonzero status).  Otherwise `bool unique = true;` and
`if (sqlite3_step(stmt) != SQLITE_DONE) unique = false;` — so the returned
verdict is `step_rc == SQLITE_DONE`, whatever the non-DONE code is.
No retry appears anywhere. -/
def is_unique (prepare_rc step_rc : Nat) : Except String Bool :=
  if prepare_rc ≠ SQLITE_OK then Except.error "SQLite prepare failed"
  else Except.ok (decide (step_rc = SQLITE_DONE))

end SQLiteStore

/-- Under normal operation (no I/O errors) `sqlite3_step` on
`INSERT INTO hashes (hash) VALUES (?)` returns `SQLITE_CONSTRAINT` exactly
when the key is already a row of the uniquely-keyed table, and
`SQLITE_DONE` otherwise (the row is then inserted). -/
def sqlite_step_result (table : List String) (key : String) : Nat :=
  if key ∈ table then SQLITE_CONSTRAINT else SQLITE_DONE

/-- One store query, mirroring dedup.cpp lines 223-232.  `seen` is the
in-memory `std::unordered_set`, `table` the rows of the SQLite `hashes`
table (normal operation, see `sqlite_step_result`), `bloomIns` the keys
inserted into the Bloom filter so far.  `bc` is the Bloom filter's
containment test as a function of the inserted keys — kept as a parameter
because `bloom_filter.hpp` is not among the sources and the spec allows its
answer to be a false positive.  Returns (unique, seen, table, bloomIns). -/
def store_query (bc : List String → String → Bool) (backend : Backend) (key : String)
    (seen table bloomIns : List String) :
    Bool × List String × List String × List String :=
  match backend with
  | Backend.memory =>
    if key ∈ seen then (false, seen, table, bloomIns)
    else (true, key :: seen, table, bloomIns)
  | Backend.sqlite =>
    if key ∈ table then (false, seen, table, bloomIns)
    else (true, seen, key :: table, bloomIns)
  | Backend.bloom =>
    if bc bloomIns key then (false, seen, table, bloomIns)
    else (true, seen, table, key :: bloomIns)

/-- Fingerprint derivation for one pair, mirroring dedup.cpp lines 211-221
verbatim, including the control-flow slip: the statement after the
`barcode_in_name` block is a NEW `if` (`} if (!index_file.empty()) {`), not
an `else if`, and the final `else` belongs to that second `if`.  Hence the
barcode key assigned in the first branch is always overwritten — by the
index key when an index stream is configured, and by the plain key
otherwise.  In index mode one record is read from the index stream with the
success flag discarded.  Returns (key, r3, remaining index lines). -/
def derive_key (d : String → String) (cfg : Config)
    (r1 r2 : FastqRecord) (f3 : List String) (r3 : FastqRecord) :
    String × FastqRecord × List String :=
  let key : String := ""
  let key := if cfg.barcode_in_name then
      d (extract_barcode_from_name r1.id ++ r1.seq ++ r2.seq)
    else key
  if cfg.has_index then
    let res := read_fastq_record f3 r3
    (d (res.2.1.seq ++ r1.seq ++ r2.seq), res.2.1, res.2.2)
  else
    (d (r1.seq ++ r2.seq), r3, f3)

/-- Full state of one run of the processing loop (dedup.cpp lines 192-250):
the three input stream positions, the three in-out records, the three store
states, the fixed Bloom sizing, the two output streams (as the lists of
records written), and the counters.  `keys` and `writtenKeys` record the
derived fingerprints (of all pairs, and of the written pairs) for
observation; they influence nothing. -/
structure RunState where
  f1 : List String
  f2 : List String
  f3 : List String
  r1 : FastqRecord
  r2 : FastqRecord
  r3 : FastqRecord
  seen : List String
  table : List String
  bloomIns : List String
  bloomSizing : Option BloomSizing
  out1 : List FastqRecord
  out2 : List FastqRecord
  keys : List String
  writtenKeys : List String
  processed : Nat
  written : Nat
  dup : Nat
deriving Repr

/-- The state after one processed pair (the body of the loop at
dedup.cpp lines 211-249): `q1`/`q2` are the freshly read records, `t1`/`t2`
the remaining lines of the two mandatory streams, `dk` the result of
`derive_key` and `sq` the result of `store_query`.  The pair is written to
both outputs exactly when the store answered unique, `written` or `dup` is
bumped accordingly, and `processed` always is. -/
def next_state (st : RunState) (q1 q2 : FastqRecord) (t1 t2 : List String)
    (dk : String × FastqRecord × List String)
    (sq : Bool × List String × List String × List String) : RunState :=
  { f1 := t1, f2 := t2, f3 := dk.2.2,
    r1 := q1, r2 := q2, r3 := dk.2.1,
    seen := sq.2.1, table := sq.2.2.1, bloomIns := sq.2.2.2,
    bloomSizing := st.bloomSizing,
    out1 := if sq.1 then st.out1 ++ [q1] else st.out1,
    out2 := if sq.1 then st.out2 ++ [q2] else st.out2,
    keys := st.keys ++ [dk.1],
    writtenKeys := if sq.1 then st.writtenKeys ++ [dk.1] else st.writtenKeys,
    processed := st.processed + 1,
    written := if sq.1 then st.written + 1 else st.written,
    dup := if sq.1 then st.dup else st.dup + 1 }

/-- The processing loop (dedup.cpp lines 210-250):
`while (read_fastq_record(f1, r1) && read_fastq_record(f2, r2))` — note the
short-circuit: when the first read fails the second stream is not touched,
and in either failure case the partially overwritten records are kept.
`fuel` bounds the number of iterations; `run_dedup` supplies enough fuel
and intermediate fuels give the intermediate observation points. -/
def dedup_loop (d : String → String) (bc : List String → String → Bool)
    (cfg : Config) : Nat → RunState → RunState
  | 0, st => st
  | fuel + 1, st =>
    let res1 := read_fastq_record st.f1 st.r1
    if res1.1 then
      let res2 := read_fastq_record st.f2 st.r2
      if res2.1 then
        let dk := derive_key d cfg res1.2.1 res2.2.1 st.f3 st.r3
        let sq := store_query bc cfg.backend dk.1 st.seen st.table st.bloomIns
        dedup_loop d bc cfg fuel (next_state st res1.2.1 res2.2.1 res1.2.2 res2.2.2 dk sq)
      else
        { st with r1 := res1.2.1, f1 := res1.2.2, r2 := res2.2.1, f2 := res2.2.2 }
    else
      { st with r1 := res1.2.1, f1 := res1.2.2 }

/-- Initial state of a run: empty stores, default records, counters zero;
the Bloom sizing is computed once, before processing, from the pre-scan
count of the first read stream and the fixed probability
(dedup.cpp lines 161-163 and 196-204). -/
def init_state (cfg : Config) (lines1 lines2 lines3 : List String) : RunState :=
  { f1 := lines1, f2 := lines2, f3 := lines3,
    r1 := FastqRecord.empty, r2 := FastqRecord.empty, r3 := FastqRecord.empty,
    seen := [], table := [], bloomIns := [],
    bloomSizing :=
      if cfg.backend = Backend.bloom then
        some (compute_optimal_parameters
          { projected_element_count := count_fastq_records lines1,
            false_positive_probability := false_positive_probability_default })
      else none,
    out1 := [], out2 := [], keys := [], writtenKeys := [],
    processed := 0, written := 0, dup := 0 }

/-- One complete run over the given stream contents.  The fuel
`lines1.length + 1` exceeds any possible number of loop iterations, since
every iteration consumes four lines of the first stream. -/
def run_dedup (d : String → String) (bc : List String → String → Bool)
    (cfg : Config) (lines1 lines2 lines3 : List String) : RunState :=
  dedup_loop d bc cfg (lines1.length + 1) (init_state cfg lines1 lines2 lines3)

/-- Startup environment: the configured paths and which of the five
`gzopen` calls would succeed. -/
structure OpenEnv where
  read1_file : String
  read2_file : String
  index_file : String
  f1_ok : Bool
  f2_ok : Bool
  f3_ok : Bool
  out1_ok : Bool
  out2_ok : Bool
deriving DecidableEq, Repr

/-- Whether `main` exits (with status 1) before the processing loop,
mirroring dedup.cpp lines 156-189 in order: missing `--read1`/`--read2`
exits; a failed open of either input stream exits; a failed open of a
configured index stream exits.  The two output streams are opened at
lines 188-189 with the results never tested, so `out1_ok`/`out2_ok` do not
occur in this decision. -/
def startup_exit (e : OpenEnv) : Bool :=
  if e.read1_file = "" ∨ e.read2_file = "" then true
  else if e.f1_ok = false ∨ e.f2_ok = false then true
  else if e.index_file ≠ "" ∧ e.f3_ok = false then true
  else false

/-- The quartets of a line stream, in order; a trailing group of fewer than
four lines yields no quartet. -/
def quartets : List String → List FastqRecord
  | l1 :: l2 :: l3 :: l4 :: rest =>
    { id := l1, seq := l2, plus := l3, qual := l4 } :: quartets rest
  | _ => []

/-- The plain-mode fingerprints of the synchronized pairs of two streams. -/
def pair_keys (d : String → String) (lines1 lines2 : List String) : List String :=
  List.zipWith (fun q1 q2 => d (q1.seq ++ q2.seq)) (quartets lines1) (quartets lines2)

/-- The four lines of a record, as written verbatim by
`write_fastq_record` (dedup.cpp lines 62-67). -/
def record_lines (r : FastqRecord) : List String :=
  [r.id, r.seq, r.plus, r.qual]

/-- The byte stream produced by writing a list of records. -/
def flatten_records (rs : List FastqRecord) : List String :=
  rs.flatMap record_lines

/-! ### Basic lemmas about the record reader and quartet decomposition -/

/-- Reading with at least four lines available succeeds, fills all four
fields and consumes exactly four lines. -/
theorem read_fastq_record_cons (l1 l2 l3 l4 : String) (rest : List String) (r : FastqRecord) :
    read_fastq_record (l1 :: l2 :: l3 :: l4 :: rest) r =
      (true, { id := l1, seq := l2, plus := l3, qual := l4 }, rest) := rfl

/-- Reading with fewer than four lines available fails (silent truncation,
no error). -/
theorem read_fastq_record_short (l : List String) (r : FastqRecord) (h : l.length < 4) :
    (read_fastq_record l r).1 = false := by
  rcases l with _ | ⟨a, _ | ⟨b, _ | ⟨c, _ | ⟨e, t⟩⟩⟩⟩
  · rfl
  · rfl
  · rfl
  · rfl
  · simp at h; omega

/-- A list of length at least four starts with four explicit elements. -/
theorem list_four_split {α : Type _} (l : List α) (h : 4 ≤ l.length) :
    ∃ a b c e t, l = a :: b :: c :: e :: t := by
  rcases l with _ | ⟨a, _ | ⟨b, _ | ⟨c, _ | ⟨e, t⟩⟩⟩⟩
  · simp at h
  · simp at h
  · simp at h
  · simp at h
  · exact ⟨a, b, c, e, t, rfl⟩

theorem quartets_cons (l1 l2 l3 l4 : String) (rest : List String) :
    quartets (l1 :: l2 :: l3 :: l4 :: rest) =
      { id := l1, seq := l2, plus := l3, qual := l4 } :: quartets rest := rfl

theorem quartets_short (l : List String) (h : l.length < 4) : quartets l = [] := by
  rcases l with _ | ⟨a, _ | ⟨b, _ | ⟨c, _ | ⟨e, t⟩⟩⟩⟩
  · rfl
  · rfl
  · rfl
  · rfl
  · simp at h; omega

/-! ### Unfolding lemmas for the processing loop -/

/-- When both mandatory streams still hold a full quartet, one loop
iteration steps to `next_state` and recurses on the remaining fuel. -/
theorem dedup_loop_succ_long (d : String → String) (bc : List String → String → Bool)
    (cfg : Config) (fuel : Nat) (st : RunState)
    {a b c e g h i j : String} {t1 t2 : List String}
    (hf1 : st.f1 = a :: b :: c :: e :: t1) (hf2 : st.f2 = g :: h :: i :: j :: t2) :
    dedup_loop d bc cfg (fuel + 1) st =
      dedup_loop d bc cfg fuel
        (next_state st ⟨a, b, c, e⟩ ⟨g, h, i, j⟩ t1 t2
          (derive_key d cfg ⟨a, b, c, e⟩ ⟨g, h, i, j⟩ st.f3 st.r3)
          (store_query bc cfg.backend
            (derive_key d cfg ⟨a, b, c, e⟩ ⟨g, h, i, j⟩ st.f3 st.r3).1
            st.seen st.table st.bloomIns)) := by
  simp [dedup_loop, hf1, hf2, read_fastq_record]

/-- When either mandatory stream is short of a full quartet, the loop
terminates, leaving only the in-out read buffers and stream positions
changed (the result does not depend on the remaining fuel). -/
theorem dedup_loop_succ_stop (d : String → String) (bc : List String → String → Bool)
    (cfg : Config) (fuel : Nat) (st : RunState)
    (hstop : st.f1.length < 4 ∨ st.f2.length < 4) :
    dedup_loop d bc cfg (fuel + 1) st =
      if (read_fastq_record st.f1 st.r1).1 then
        { st with r1 := (read_fastq_record st.f1 st.r1).2.1,
                  f1 := (read_fastq_record st.f1 st.r1).2.2,
                  r2 := (read_fastq_record st.f2 st.r2).2.1,
                  f2 := (read_fastq_record st.f2 st.r2).2.2 }
      else
        { st with r1 := (read_fastq_record st.f1 st.r1).2.1,
                  f1 := (read_fastq_record st.f1 st.r1).2.2 } := by
  by_cases h1 : st.f1.length < 4
  · have hb := read_fastq_record_short st.f1 st.r1 h1
    simp [dedup_loop, hb]
  · have h2 : st.f2.length < 4 := hstop.resolve_left h1
    obtain ⟨a, b, c, e, t1, hf1⟩ := list_four_split st.f1 (by omega)
    have hb2 := read_fastq_record_short st.f2 st.r2 h2
    simp [dedup_loop, hf1, read_fastq_record_cons, hb2]

/-! ### Per-step facts about `next_state` -/

theorem next_state_counter (st : RunState) (q1 q2 : FastqRecord) (t1 t2 : List String)
    (dk : String × FastqRecord × List String)
    (sq : Bool × List String × List String × List String)
    (h : st.processed = st.written + st.dup) :
    (next_state st q1 q2 t1 t2 dk sq).processed =
      (next_state st q1 q2 t1 t2 dk sq).written + (next_state st q1 q2 t1 t2 dk sq).dup := by
  rcases sq with ⟨u, s⟩
  cases u <;> simp [next_state] <;> omega

theorem next_state_counter_le (st : RunState) (q1 q2 : FastqRecord) (t1 t2 : List String)
    (dk : String × FastqRecord × List String)
    (sq : Bool × List String × List String × List String) :
    st.processed ≤ (next_state st q1 q2 t1 t2 dk sq).processed ∧
    st.written ≤ (next_state st q1 q2 t1 t2 dk sq).written ∧
    st.dup ≤ (next_state st q1 q2 t1 t2 dk sq).dup := by
  rcases sq with ⟨u, s⟩
  cases u <;> simp [next_state] <;> omega

/-! ### The counter invariant and monotonicity -/

/-- The loop preserves `processed = written + dup`. -/
theorem dedup_loop_counter_eq (d : String → String) (bc : List String → String → Bool)
    (cfg : Config) :
    ∀ (fuel : Nat) (st : RunState), st.processed = st.written + st.dup →
      (dedup_loop d bc cfg fuel st).processed =
        (dedup_loop d bc cfg fuel st).written + (dedup_loop d bc cfg fuel st).dup := by
  intro fuel
  induction fuel with
  | zero => exact fun st h => h
  | succ n ih =>
    intro st h
    by_cases h1 : 4 ≤ st.f1.length
    · by_cases h2 : 4 ≤ st.f2.length
      · obtain ⟨a, b, c, e, t1, hf1⟩ := list_four_split st.f1 h1
        obtain ⟨g, hg, i, j, t2, hf2⟩ := list_four_split st.f2 h2
        rw [dedup_loop_succ_long d bc cfg n st hf1 hf2]
        exact ih _ (next_state_counter _ _ _ _ _ _ _ h)
      · rw [dedup_loop_succ_stop d bc cfg n st (Or.inr (by omega))]
        by_cases hrd : (read_fastq_record st.f1 st.r1).1 = true <;> simp [hrd, h]
    · rw [dedup_loop_succ_stop d bc cfg n st (Or.inl (by omega))]
      by_cases hrd : (read_fastq_record st.f1 st.r1).1 = true <;> simp [hrd, h]

/-- Counters never decrease along the loop. -/
theorem dedup_loop_counter_le (d : String → String) (bc : List String → String → Bool)
    (cfg : Config) :
    ∀ (fuel : Nat) (st : RunState),
      st.processed ≤ (dedup_loop d bc cfg fuel st).processed ∧
      st.written ≤ (dedup_loop d bc cfg fuel st).written ∧
      st.dup ≤ (dedup_loop d bc cfg fuel st).dup := by
  intro fuel
  induction fuel with
  | zero => exact fun st => ⟨le_refl _, le_refl _, le_refl _⟩
  | succ n ih =>
    intro st
    by_cases h1 : 4 ≤ st.f1.length
    · by_cases h2 : 4 ≤ st.f2.length
      · obtain ⟨a, b, c, e, t1, hf1⟩ := list_four_split st.f1 h1
        obtain ⟨g, hg, i, j, t2, hf2⟩ := list_four_split st.f2 h2
        rw [dedup_loop_succ_long d bc cfg n st hf1 hf2]
        have hstep := next_state_counter_le st ⟨a, b, c, e⟩ ⟨g, hg, i, j⟩ t1 t2
          (derive_key d cfg ⟨a, b, c, e⟩ ⟨g, hg, i, j⟩ st.f3 st.r3)
          (store_query bc cfg.backend
            (derive_key d cfg ⟨a, b, c, e⟩ ⟨g, hg, i, j⟩ st.f3 st.r3).1
            st.seen st.table st.bloomIns)
        have hrest := ih (next_state st ⟨a, b, c, e⟩ ⟨g, hg, i, j⟩ t1 t2
          (derive_key d cfg ⟨a, b, c, e⟩ ⟨g, hg, i, j⟩ st.f3 st.r3)
          (store_query bc cfg.backend
            (derive_key d cfg ⟨a, b, c, e⟩ ⟨g, hg, i, j⟩ st.f3 st.r3).1
            st.seen st.table st.bloomIns))
        exact ⟨le_trans hstep.1 hrest.1, le_trans hstep.2.1 hrest.2.1,
          le_trans hstep.2.2 hrest.2.2⟩
      · rw [dedup_loop_succ_stop d bc cfg n st (Or.inr (by omega))]
        by_cases hrd : (read_fastq_record st.f1 st.r1).1 = true <;> simp [hrd]
    · rw [dedup_loop_succ_stop d bc cfg n st (Or.inl (by omega))]
      by_cases hrd : (read_fastq_record st.f1 st.r1).1 = true <;> simp [hrd]

/-- One more unit of fuel can only move the counters forward. -/
theorem dedup_loop_counter_fuel_le (d : String → String) (bc : List String → String → Bool)
    (cfg : Config) :
    ∀ (fuel : Nat) (st : RunState),
      (dedup_loop d bc cfg fuel st).processed ≤ (dedup_loop d bc cfg (fuel + 1) st).processed ∧
      (dedup_loop d bc cfg fuel st).written ≤ (dedup_loop d bc cfg (fuel + 1) st).written ∧
      (dedup_loop d bc cfg fuel st).dup ≤ (dedup_loop d bc cfg (fuel + 1) st).dup := by
  intro fuel
  induction fuel with
  | zero => exact fun st => dedup_loop_counter_le d bc cfg 1 st
  | succ n ih =>
    intro st
    by_cases h1 : 4 ≤ st.f1.length
    · by_cases h2 : 4 ≤ st.f2.length
      · obtain ⟨a, b, c, e, t1, hf1⟩ := list_four_split st.f1 h1
        obtain ⟨g, hg, i, j, t2, hf2⟩ := list_four_split st.f2 h2
        rw [dedup_loop_succ_long d bc cfg n st hf1 hf2,
          dedup_loop_succ_long d bc cfg (n + 1) st hf1 hf2]
        exact ih _
      · rw [dedup_loop_succ_stop d bc cfg n st (Or.inr (by omega)),
          dedup_loop_succ_stop d bc cfg (n + 1) st (Or.inr (by omega))]
        exact ⟨le_refl _, le_refl _, le_refl _⟩
    · rw [dedup_loop_succ_stop d bc cfg n st (Or.inl (by omega)),
        dedup_loop_succ_stop d bc cfg (n + 1) st (Or.inl (by omega))]
      exact ⟨le_refl _, le_refl _, le_refl _⟩

/-! ### How many pairs the loop processes -/

/-- With enough fuel, the loop processes exactly one pair per complete
quartet of the shorter mandatory stream, whatever the mode and backend:
the index stream never participates in the loop condition. -/
theorem dedup_loop_processed (d : String → String) (bc : List String → String → Bool)
    (cfg : Config) :
    ∀ (fuel : Nat) (st : RunState), st.f1.length < fuel →
      (dedup_loop d bc cfg fuel st).processed =
        st.processed + min (st.f1.length / 4) (st.f2.length / 4) := by
  intro fuel
  induction fuel with
  | zero => intro st h; omega
  | succ n ih =>
    intro st h
    by_cases h1 : 4 ≤ st.f1.length
    · by_cases h2 : 4 ≤ st.f2.length
      · obtain ⟨a, b, c, e, t1, hf1⟩ := list_four_split st.f1 h1
        obtain ⟨g, hg, i, j, t2, hf2⟩ := list_four_split st.f2 h2
        rw [dedup_loop_succ_long d bc cfg n st hf1 hf2]
        rw [ih _ (by simp [next_state]; rw [hf1] at h; simp at h; omega)]
        simp [next_state, hf1, hf2]
        omega
      · rw [dedup_loop_succ_stop d bc cfg n st (Or.inr (by omega))]
        have hm : st.f2.length / 4 = 0 := by omega
        by_cases hrd : (read_fastq_record st.f1 st.r1).1 = true <;> simp [hrd, hm]
    · rw [dedup_loop_succ_stop d bc cfg n st (Or.inl (by omega))]
      have hm : st.f1.length / 4 = 0 := by omega
      by_cases hrd : (read_fastq_record st.f1 st.r1).1 = true <;> simp [hrd, hm]

/-! ### The derived-key trace -/

/-- Without an index stream, every derived key is the plain digest of the
two sequence lines — regardless of the `barcode_in_name` flag, whose key is
overwritten by the `else` branch of the second `if`. -/
theorem derive_key_no_index (d : String → String) (cfg : Config) (hni : cfg.has_index = false)
    (r1 r2 : FastqRecord) (f3 : List String) (r3 : FastqRecord) :
    derive_key d cfg r1 r2 f3 r3 = (d (r1.seq ++ r2.seq), r3, f3) := by
  simp [derive_key, hni]

/-- With an index stream configured, the key is the digest of the (possibly
stale) index record sequence followed by the two read sequences — again
regardless of the `barcode_in_name` flag. -/
theorem derive_key_index (d : String → String) (cfg : Config) (hix : cfg.has_index = true)
    (r1 r2 : FastqRecord) (f3 : List String) (r3 : FastqRecord) :
    derive_key d cfg r1 r2 f3 r3 =
      (d ((read_fastq_record f3 r3).2.1.seq ++ r1.seq ++ r2.seq),
       (read_fastq_record f3 r3).2.1, (read_fastq_record f3 r3).2.2) := by
  simp [derive_key, hix]

/-- In no-index mode the loop appends exactly the plain pair keys of the
remaining streams to the key trace. -/
theorem dedup_loop_keys_plain (d : String → String) (bc : List String → String → Bool)
    (cfg : Config) (hni : cfg.has_index = false) :
    ∀ (fuel : Nat) (st : RunState), st.f1.length < fuel →
      (dedup_loop d bc cfg fuel st).keys = st.keys ++ pair_keys d st.f1 st.f2 := by
  intro fuel
  induction fuel with
  | zero => intro st h; omega
  | succ n ih =>
    intro st h
    by_cases h1 : 4 ≤ st.f1.length
    · by_cases h2 : 4 ≤ st.f2.length
      · obtain ⟨a, b, c, e, t1, hf1⟩ := list_four_split st.f1 h1
        obtain ⟨g, hg, i, j, t2, hf2⟩ := list_four_split st.f2 h2
        rw [dedup_loop_succ_long d bc cfg n st hf1 hf2]
        rw [ih _ (by simp [next_state]; rw [hf1] at h; simp at h; omega)]
        simp [next_state, hf1, hf2, pair_keys, quartets_cons,
          derive_key_no_index d cfg hni]
      · rw [dedup_loop_succ_stop d bc cfg n st (Or.inr (by omega))]
        have hq2 : quartets st.f2 = [] := quartets_short st.f2 (by omega)
        by_cases hrd : (read_fastq_record st.f1 st.r1).1 = true <;>
          simp [hrd, pair_keys, hq2]
    · rw [dedup_loop_succ_stop d bc cfg n st (Or.inl (by omega))]
      have hq1 : quartets st.f1 = [] := quartets_short st.f1 (by omega)
      by_cases hrd : (read_fastq_record st.f1 st.r1).1 = true <;>
        simp [hrd, pair_keys, hq1]

/-- In index mode, once the index stream is exhausted the failed index
reads change nothing: the retained record `r3` is reused for every
remaining pair, and the loop still runs to the end of the mandatory
streams. -/
theorem dedup_loop_keys_index_exhausted (d : String → String)
    (bc : List String → String → Bool) (cfg : Config) (hix : cfg.has_index = true) :
    ∀ (fuel : Nat) (st : RunState), st.f1.length < fuel → st.f3 = [] →
      (dedup_loop d bc cfg fuel st).keys =
        st.keys ++ List.zipWith (fun q1 q2 => d (st.r3.seq ++ q1.seq ++ q2.seq))
          (quartets st.f1) (quartets st.f2) ∧
      (dedup_loop d bc cfg fuel st).r3 = st.r3 ∧
      (dedup_loop d bc cfg fuel st).f3 = [] := by
  intro fuel
  induction fuel with
  | zero => intro st h; omega
  | succ n ih =>
    intro st h hf3
    by_cases h1 : 4 ≤ st.f1.length
    · by_cases h2 : 4 ≤ st.f2.length
      · obtain ⟨a, b, c, e, t1, hf1⟩ := list_four_split st.f1 h1
        obtain ⟨g, hg, i, j, t2, hf2⟩ := list_four_split st.f2 h2
        rw [dedup_loop_succ_long d bc cfg n st hf1 hf2, hf3]
        have hdk : derive_key d cfg ⟨a, b, c, e⟩ ⟨g, hg, i, j⟩ [] st.r3 =
            (d (st.r3.seq ++ b ++ hg), st.r3, []) := by
          simp [derive_key, hix, read_fastq_record]
        obtain ⟨hkeys, hr3, hf3r⟩ := ih
          (next_state st ⟨a, b, c, e⟩ ⟨g, hg, i, j⟩ t1 t2
            (derive_key d cfg ⟨a, b, c, e⟩ ⟨g, hg, i, j⟩ [] st.r3)
            (store_query bc cfg.backend
              (derive_key d cfg ⟨a, b, c, e⟩ ⟨g, hg, i, j⟩ [] st.r3).1
              st.seen st.table st.bloomIns))
          (by simp [next_state]; rw [hf1] at h; simp at h; omega)
          (by simp [next_state, hdk])
        refine ⟨?_, ?_, hf3r⟩
        · rw [hkeys]
          simp [next_state, hdk, hf1, hf2, quartets_cons]
        · rw [hr3]
          simp [next_state, hdk]
      · rw [dedup_loop_succ_stop d bc cfg n st (Or.inr (by omega))]
        have hq2 : quartets st.f2 = [] := quartets_short st.f2 (by omega)
        by_cases hrd : (read_fastq_record st.f1 st.r1).1 = true <;>
          simp [hrd, hq2, hf3]
    · rw [dedup_loop_succ_stop d bc cfg n st (Or.inl (by omega))]
      have hq1 : quartets st.f1 = [] := quartets_short st.f1 (by omega)
      by_cases hrd : (read_fastq_record st.f1 st.r1).1 = true <;>
        simp [hrd, hq1, hf3]

/-- The Bloom sizing stored in the state is never touched by the loop. -/
theorem dedup_loop_bloomSizing (d : String → String) (bc : List String → String → Bool)
    (cfg : Config) :
    ∀ (fuel : Nat) (st : RunState),
      (dedup_loop d bc cfg fuel st).bloomSizing = st.bloomSizing := by
  intro fuel
  induction fuel with
  | zero => intro st; rfl
  | succ n ih =>
    intro st
    by_cases h1 : 4 ≤ st.f1.length
    · by_cases h2 : 4 ≤ st.f2.length
      · obtain ⟨a, b, c, e, t1, hf1⟩ := list_four_split st.f1 h1
        obtain ⟨g, hg, i, j, t2, hf2⟩ := list_four_split st.f2 h2
        rw [dedup_loop_succ_long d bc cfg n st hf1 hf2, ih]
        simp [next_state]
      · rw [dedup_loop_succ_stop d bc cfg n st (Or.inr (by omega))]
        by_cases hrd : (read_fastq_record st.f1 st.r1).1 = true <;> simp [hrd]
    · rw [dedup_loop_succ_stop d bc cfg n st (Or.inl (by omega))]
      by_cases hrd : (read_fastq_record st.f1 st.r1).1 = true <;> simp [hrd]

/-- The key trace does not depend on the membership store: two runs over
the same streams with the same mode flags but different backends and
different Bloom containment behaviour derive the same keys. -/
theorem dedup_loop_keys_backend_indep (d : String → String)
    (bc bc2 : List String → String → Bool) (cfg cfg2 : Config)
    (hb : cfg.barcode_in_name = cfg2.barcode_in_name) (hi : cfg.has_index = cfg2.has_index) :
    ∀ (fuel : Nat) (st st2 : RunState),
      st.f1 = st2.f1 → st.f2 = st2.f2 → st.f3 = st2.f3 →
      st.r1 = st2.r1 → st.r2 = st2.r2 → st.r3 = st2.r3 → st.keys = st2.keys →
      (dedup_loop d bc cfg fuel st).keys = (dedup_loop d bc2 cfg2 fuel st2).keys := by
  intro fuel
  induction fuel with
  | zero => intro st st2 _ _ _ _ _ _ hk; exact hk
  | succ n ih =>
    intro st st2 e1 e2 e3 er1 er2 er3 ek
    have hder : ∀ q1 q2, derive_key d cfg q1 q2 st.f3 st.r3 =
        derive_key d cfg2 q1 q2 st2.f3 st2.r3 := by
      intro q1 q2
      rw [e3, er3]
      simp [derive_key, hi]
    by_cases h1 : 4 ≤ st.f1.length
    · by_cases h2 : 4 ≤ st.f2.length
      · obtain ⟨a, b, c, e, t1, hf1⟩ := list_four_split st.f1 h1
        obtain ⟨g, hg, i, j, t2, hf2⟩ := list_four_split st.f2 h2
        rw [dedup_loop_succ_long d bc cfg n st hf1 hf2,
          dedup_loop_succ_long d bc2 cfg2 n st2 (e1 ▸ hf1) (e2 ▸ hf2)]
        apply ih <;> simp [next_state, hder, ek]
      · rw [dedup_loop_succ_stop d bc cfg n st (Or.inr (by omega)),
          dedup_loop_succ_stop d bc2 cfg2 n st2 (Or.inr (by rw [← e2]; omega))]
        rw [← e1, ← e2, ← er1, ← er2]
        by_cases hrd : (read_fastq_record st.f1 st.r1).1 = true <;>
          simp [hrd, ek]
    · rw [dedup_loop_succ_stop d bc cfg n st (Or.inl (by omega)),
        dedup_loop_succ_stop d bc2 cfg2 n st2 (Or.inl (by rw [← e1]; omega))]
      rw [← e1, ← er1]
      by_cases hrd : (read_fastq_record st.f1 st.r1).1 = true <;>
        simp [hrd, ek]

/-! ### Exact-backend invariants -/

/-- Memory backend: the written keys stay duplicate-free, and each of them
is in the seen-set. -/
theorem dedup_loop_nodup_mem (d : String → String) (bc : List String → String → Bool)
    (cfg : Config) (hmem : cfg.backend = Backend.memory) :
    ∀ (fuel : Nat) (st : RunState), st.writtenKeys.Nodup →
      (∀ k ∈ st.writtenKeys, k ∈ st.seen) →
      (dedup_loop d bc cfg fuel st).writtenKeys.Nodup ∧
      ∀ k ∈ (dedup_loop d bc cfg fuel st).writtenKeys,
        k ∈ (dedup_loop d bc cfg fuel st).seen := by
  intro fuel
  induction fuel with
  | zero => exact fun st hw hs => ⟨hw, hs⟩
  | succ n ih =>
    intro st hw hs
    by_cases h1 : 4 ≤ st.f1.length
    · by_cases h2 : 4 ≤ st.f2.length
      · obtain ⟨a, b, c, e, t1, hf1⟩ := list_four_split st.f1 h1
        obtain ⟨g, hg, i, j, t2, hf2⟩ := list_four_split st.f2 h2
        rw [dedup_loop_succ_long d bc cfg n st hf1 hf2]
        by_cases hk : (derive_key d cfg ⟨a, b, c, e⟩ ⟨g, hg, i, j⟩ st.f3 st.r3).1 ∈ st.seen
        · have hsq : store_query bc cfg.backend
              (derive_key d cfg ⟨a, b, c, e⟩ ⟨g, hg, i, j⟩ st.f3 st.r3).1
              st.seen st.table st.bloomIns =
              (false, st.seen, st.table, st.bloomIns) := by
            rw [hmem]; simp [store_query, hk]
          rw [hsq]
          exact ih _ (by simpa [next_state] using hw) (by simpa [next_state] using hs)
        · have hsq : store_query bc cfg.backend
              (derive_key d cfg ⟨a, b, c, e⟩ ⟨g, hg, i, j⟩ st.f3 st.r3).1
              st.seen st.table st.bloomIns =
              (true, (derive_key d cfg ⟨a, b, c, e⟩ ⟨g, hg, i, j⟩ st.f3 st.r3).1 :: st.seen,
               st.table, st.bloomIns) := by
            rw [hmem]; simp [store_query, hk]
          rw [hsq]
          have hnotin : (derive_key d cfg ⟨a, b, c, e⟩ ⟨g, hg, i, j⟩ st.f3 st.r3).1
              ∉ st.writtenKeys := fun hc => hk (hs _ hc)
          refine ih _ ?_ ?_
          · simp [next_state, List.nodup_append, hw, hnotin]
          · intro k hkmem
            simp [next_state] at hkmem ⊢
            rcases hkmem with hkm | hkm
            · exact Or.inr (hs _ hkm)
            · exact Or.inl hkm
      · rw [dedup_loop_succ_stop d bc cfg n st (Or.inr (by omega))]
        by_cases hrd : (read_fastq_record st.f1 st.r1).1 = true <;>
          simp [hrd, hw] <;> exact hs
    · rw [dedup_loop_succ_stop d bc cfg n st (Or.inl (by omega))]
      by_cases hrd : (read_fastq_record st.f1 st.r1).1 = true <;>
        simp [hrd, hw] <;> exact hs

/-- SQLite backend (normal operation, fresh or arbitrary table): the
written keys stay duplicate-free, and each of them is a row of the table. -/
theorem dedup_loop_nodup_sqlite (d : String → String) (bc : List String → String → Bool)
    (cfg : Config) (hsql : cfg.backend = Backend.sqlite) :
    ∀ (fuel : Nat) (st : RunState), st.writtenKeys.Nodup →
      (∀ k ∈ st.writtenKeys, k ∈ st.table) →
      (dedup_loop d bc cfg fuel st).writtenKeys.Nodup ∧
      ∀ k ∈ (dedup_loop d bc cfg fuel st).writtenKeys,
        k ∈ (dedup_loop d bc cfg fuel st).table := by
  intro fuel
  induction fuel with
  | zero => exact fun st hw hs => ⟨hw, hs⟩
  | succ n ih =>
    intro st hw hs
    by_cases h1 : 4 ≤ st.f1.length
    · by_cases h2 : 4 ≤ st.f2.length
      · obtain ⟨a, b, c, e, t1, hf1⟩ := list_four_split st.f1 h1
        obtain ⟨g, hg, i, j, t2, hf2⟩ := list_four_split st.f2 h2
        rw [dedup_loop_succ_long d bc cfg n st hf1 hf2]
        by_cases hk : (derive_key d cfg ⟨a, b, c, e⟩ ⟨g, hg, i, j⟩ st.f3 st.r3).1 ∈ st.table
        · have hsq : store_query bc cfg.backend
              (derive_key d cfg ⟨a, b, c, e⟩ ⟨g, hg, i, j⟩ st.f3 st.r3).1
              st.seen st.table st.bloomIns =
              (false, st.seen, st.table, st.bloomIns) := by
            rw [hsql]; simp [store_query, hk]
          rw [hsq]
          exact ih _ (by simpa [next_state] using hw) (by simpa [next_state] using hs)
        · have hsq : store_query bc cfg.backend
              (derive_key d cfg ⟨a, b, c, e⟩ ⟨g, hg, i, j⟩ st.f3 st.r3).1
              st.seen st.table st.bloomIns =
              (true, st.seen,
               (derive_key d cfg ⟨a, b, c, e⟩ ⟨g, hg, i, j⟩ st.f3 st.r3).1 :: st.table,
               st.bloomIns) := by
            rw [hsql]; simp [store_query, hk]
          rw [hsq]
          have hnotin : (derive_key d cfg ⟨a, b, c, e⟩ ⟨g, hg, i, j⟩ st.f3 st.r3).1
              ∉ st.writtenKeys := fun hc => hk (hs _ hc)
          refine ih _ ?_ ?_
          · simp [next_state, List.nodup_append, hw, hnotin]
          · intro k hkmem
            simp [next_state] at hkmem ⊢
            rcases hkmem with hkm | hkm
            · exact Or.inr (hs _ hkm)
            · exact Or.inl hkm
      · rw [dedup_loop_succ_stop d bc cfg n st (Or.inr (by omega))]
        by_cases hrd : (read_fastq_record st.f1 st.r1).1 = true <;>
          simp [hrd, hw] <;> exact hs
    · rw [dedup_loop_succ_stop d bc cfg n st (Or.inl (by omega))]
      by_cases hrd : (read_fastq_record st.f1 st.r1).1 = true <;>
        simp [hrd, hw] <;> exact hs

/-- In no-index mode the written keys are exactly the plain digests of the
output pairs, and the two outputs stay synchronized. -/
theorem dedup_loop_writtenKeys_zip (d : String → String) (bc : List String → String → Bool)
    (cfg : Config) (hni : cfg.has_index = false) :
    ∀ (fuel : Nat) (st : RunState), st.out1.length = st.out2.length →
      st.writtenKeys =
        List.zipWith (fun q1 q2 => d (q1.seq ++ q2.seq)) st.out1 st.out2 →
      (dedup_loop d bc cfg fuel st).out1.length = (dedup_loop d bc cfg fuel st).out2.length ∧
      (dedup_loop d bc cfg fuel st).writtenKeys =
        List.zipWith (fun q1 q2 => d (q1.seq ++ q2.seq))
          (dedup_loop d bc cfg fuel st).out1 (dedup_loop d bc cfg fuel st).out2 := by
  intro fuel
  induction fuel with
  | zero => exact fun st hl hz => ⟨hl, hz⟩
  | succ n ih =>
    intro st hl hz
    by_cases h1 : 4 ≤ st.f1.length
    · by_cases h2 : 4 ≤ st.f2.length
      · obtain ⟨a, b, c, e, t1, hf1⟩ := list_four_split st.f1 h1
        obtain ⟨g, hg, i, j, t2, hf2⟩ := list_four_split st.f2 h2
        rw [dedup_loop_succ_long d bc cfg n st hf1 hf2,
          derive_key_no_index d cfg hni ⟨a, b, c, e⟩ ⟨g, hg, i, j⟩ st.f3 st.r3]
        refine ih _ ?_ ?_
        · by_cases hu : (store_query bc cfg.backend (d (b ++ hg))
              st.seen st.table st.bloomIns).1 = true <;>
            simp [next_state, hu, hl]
        · by_cases hu : (store_query bc cfg.backend (d (b ++ hg))
              st.seen st.table st.bloomIns).1 = true <;>
            simp [next_state, hu, hz, List.zipWith_append _ _ _ _ _ hl]
      · rw [dedup_loop_succ_stop d bc cfg n st (Or.inr (by omega))]
        by_cases hrd : (read_fastq_record st.f1 st.r1).1 = true <;>
          simp [hrd, hl, hz]
    · rw [dedup_loop_succ_stop d bc cfg n st (Or.inl (by omega))]
      by_cases hrd : (read_fastq_record st.f1 st.r1).1 = true <;>
        simp [hrd, hl, hz]

/-- Memory backend, no-index mode: if the upcoming pair keys are pairwise
distinct and none is already seen, no pair is ever flagged duplicate. -/
theorem dedup_loop_dup_const_mem (d : String → String) (bc : List String → String → Bool)
    (cfg : Config) (hmem : cfg.backend = Backend.memory) (hni : cfg.has_index = false) :
    ∀ (fuel : Nat) (st : RunState), (pair_keys d st.f1 st.f2).Nodup →
      (∀ k ∈ pair_keys d st.f1 st.f2, k ∉ st.seen) →
      (dedup_loop d bc cfg fuel st).dup = st.dup := by
  intro fuel
  induction fuel with
  | zero => intro st _ _; rfl
  | succ n ih =>
    intro st hnd hns
    by_cases h1 : 4 ≤ st.f1.length
    · by_cases h2 : 4 ≤ st.f2.length
      · obtain ⟨a, b, c, e, t1, hf1⟩ := list_four_split st.f1 h1
        obtain ⟨g, hg, i, j, t2, hf2⟩ := list_four_split st.f2 h2
        have hpk : pair_keys d st.f1 st.f2 = d (b ++ hg) :: pair_keys d t1 t2 := by
          simp [pair_keys, hf1, hf2, quartets_cons]
        rw [dedup_loop_succ_long d bc cfg n st hf1 hf2,
          derive_key_no_index d cfg hni ⟨a, b, c, e⟩ ⟨g, hg, i, j⟩ st.f3 st.r3]
        have hknotin : d (b ++ hg) ∉ st.seen := by
          apply hns; rw [hpk]; exact List.mem_cons_self _ _
        have hsq : store_query bc cfg.backend (d (b ++ hg))
            st.seen st.table st.bloomIns =
            (true, d (b ++ hg) :: st.seen, st.table, st.bloomIns) := by
          rw [hmem]; simp [store_query, hknotin]
        rw [hpk] at hnd hns
        have hrest : (dedup_loop d bc cfg n
            (next_state st ⟨a, b, c, e⟩ ⟨g, hg, i, j⟩ t1 t2
              (d (b ++ hg), st.r3, st.f3)
              (store_query bc cfg.backend (d (b ++ hg))
                st.seen st.table st.bloomIns))).dup =
            (next_state st ⟨a, b, c, e⟩ ⟨g, hg, i, j⟩ t1 t2
              (d (b ++ hg), st.r3, st.f3)
              (store_query bc cfg.backend (d (b ++ hg))
                st.seen st.table st.bloomIns)).dup := by
          apply ih
          · simpa [next_state] using hnd.of_cons
          · intro k hk
            simp only [next_state] at hk
            rw [hsq]
            simp only [next_state, List.mem_cons]
            push_neg
            constructor
            · intro hkey
              rw [hkey] at hk
              exact absurd hk (List.Nodup.not_mem hnd)
            · exact hns k (List.mem_cons_of_mem _ hk)
        rw [hrest]
        simp [next_state, hsq]
      · rw [dedup_loop_succ_stop d bc cfg n st (Or.inr (by omega))]
        by_cases hrd : (read_fastq_record st.f1 st.r1).1 = true <;> simp [hrd]
    · rw [dedup_loop_succ_stop d bc cfg n st (Or.inl (by omega))]
      by_cases hrd : (read_fastq_record st.f1 st.r1).1 = true <;> simp [hrd]

/-- SQLite backend, no-index mode: if the upcoming pair keys are pairwise
distinct and none is a row of the table yet, no pair is ever flagged
duplicate. -/
theorem dedup_loop_dup_const_sqlite (d : String → String) (bc : List String → String → Bool)
    (cfg : Config) (hsql : cfg.backend = Backend.sqlite) (hni : cfg.has_index = false) :
    ∀ (fuel : Nat) (st : RunState), (pair_keys d st.f1 st.f2).Nodup →
      (∀ k ∈ pair_keys d st.f1 st.f2, k ∉ st.table) →
      (dedup_loop d bc cfg fuel st).dup = st.dup := by
  intro fuel
  induction fuel with
  | zero => intro st _ _; rfl
  | succ n ih =>
    intro st hnd hns
    by_cases h1 : 4 ≤ st.f1.length
    · by_cases h2 : 4 ≤ st.f2.length
      · obtain ⟨a, b, c, e, t1, hf1⟩ := list_four_split st.f1 h1
        obtain ⟨g, hg, i, j, t2, hf2⟩ := list_four_split st.f2 h2
        have hpk : pair_keys d st.f1 st.f2 = d (b ++ hg) :: pair_keys d t1 t2 := by
          simp [pair_keys, hf1, hf2, quartets_cons]
        rw [dedup_loop_succ_long d bc cfg n st hf1 hf2,
          derive_key_no_index d cfg hni ⟨a, b, c, e⟩ ⟨g, hg, i, j⟩ st.f3 st.r3]
        have hknotin : d (b ++ hg) ∉ st.table := by
          apply hns; rw [hpk]; exact List.mem_cons_self _ _
        have hsq : store_query bc cfg.backend (d (b ++ hg))
            st.seen st.table st.bloomIns =
            (true, st.seen, d (b ++ hg) :: st.table, st.bloomIns) := by
          rw [hsql]; simp [store_query, hknotin]
        rw [hpk] at hnd hns
        have hrest : (dedup_loop d bc cfg n
            (next_state st ⟨a, b, c, e⟩ ⟨g, hg, i, j⟩ t1 t2
              (d (b ++ hg), st.r3, st.f3)
              (store_query bc cfg.backend (d (b ++ hg))
                st.seen st.table st.bloomIns))).dup =
            (next_state st ⟨a, b, c, e⟩ ⟨g, hg, i, j⟩ t1 t2
              (d (b ++ hg), st.r3, st.f3)
              (store_query bc cfg.backend (d (b ++ hg))
                st.seen st.table st.bloomIns)).dup := by
          apply ih
          · simpa [next_state] using hnd.of_cons
          · intro k hk
            simp only [next_state] at hk
            rw [hsq]
            simp only [next_state, List.mem_cons]
            push_neg
            constructor
            · intro hkey
              rw [hkey] at hk
              exact absurd hk (List.Nodup.not_mem hnd)
            · exact hns k (List.mem_cons_of_mem _ hk)
        rw [hrest]
        simp [next_state, hsq]
      · rw [dedup_loop_succ_stop d bc cfg n st (Or.inr (by omega))]
        by_cases hrd : (read_fastq_record st.f1 st.r1).1 = true <;> simp [hrd]
    · rw [dedup_loop_succ_stop d bc cfg n st (Or.inl (by omega))]
      by_cases hrd : (read_fastq_record st.f1 st.r1).1 = true <;> simp [hrd]

/-- Writing records and re-reading the byte stream recovers them
unchanged: each record occupies exactly one quartet. -/
theorem quartets_flatten_records (rs : List FastqRecord) :
    quartets (flatten_records rs) = rs := by
  induction rs with
  | nil => rfl
  | cons r rs ih =>
    cases r
    simp [flatten_records, record_lines, List.flatMap_cons, quartets_cons] at ih ⊢
    simpa [flatten_records] using ih

/-! ### Claims -/

/-- Claim C2: for every run — any digest, any Bloom behaviour, any
configuration, any inputs — the statistics satisfy
`processed = written + duplicates` at every observation point (the state
reached after any number of loop iterations, i.e. any fuel), and all three
counters are monotonically non-decreasing from each observation point to
the next. -/
theorem stats_invariant_and_monotone (d : String → String)
    (bc : List String → String → Bool) (cfg : Config)
    (lines1 lines2 lines3 : List String) (fuel : Nat) :
    (dedup_loop d bc cfg fuel (init_state cfg lines1 lines2 lines3)).processed =
      (dedup_loop d bc cfg fuel (init_state cfg lines1 lines2 lines3)).written +
      (dedup_loop d bc cfg fuel (init_state cfg lines1 lines2 lines3)).dup ∧
    (dedup_loop d bc cfg fuel (init_state cfg lines1 lines2 lines3)).processed ≤
      (dedup_loop d bc cfg (fuel + 1) (init_state cfg lines1 lines2 lines3)).processed ∧
    (dedup_loop d bc cfg fuel (init_state cfg lines1 lines2 lines3)).written ≤
      (dedup_loop d bc cfg (fuel + 1) (init_state cfg lines1 lines2 lines3)).written ∧
    (dedup_loop d bc cfg fuel (init_state cfg lines1 lines2 lines3)).dup ≤
      (dedup_loop d bc cfg (fuel + 1) (init_state cfg lines1 lines2 lines3)).dup :=
  ⟨dedup_loop_counter_eq d bc cfg fuel _ (by simp [init_state]),
   dedup_loop_counter_fuel_le d bc cfg fuel _⟩

/-- Claim C6: for any two mandatory streams holding n1 and n2 complete
quartets (an incomplete trailing record counts as end-of-stream, not an
error), processing stops after exactly min(n1, n2) pairs, in every mode and
with every backend; the trailing records of the longer stream are never
processed.  With 10 and 8 quartets this gives exactly 8 pairs. -/
theorem processed_eq_min_quartets (d : String → String)
    (bc : List String → String → Bool) (cfg : Config)
    (lines1 lines2 lines3 : List String) :
    (run_dedup d bc cfg lines1 lines2 lines3).processed =
      min (count_fastq_records lines1) (count_fastq_records lines2) := by
  unfold run_dedup count_fastq_records
  rw [dedup_loop_processed d bc cfg _ _ (by simp [init_state])]
  simp [init_state]

/-- Claim C8: fingerprint derivation is deterministic and independent of
the backend: with the digest and the two mode switches fixed, two runs over
the same streams derive the identical key sequence whatever membership
store is chosen and whatever the Bloom filter answers. -/
theorem derive_keys_backend_indep (d : String → String)
    (bc bc2 : List String → String → Bool) (bin hix : Bool) (b1 b2 : Backend)
    (lines1 lines2 lines3 : List String) :
    (run_dedup d bc ⟨bin, hix, b1⟩ lines1 lines2 lines3).keys =
      (run_dedup d bc2 ⟨bin, hix, b2⟩ lines1 lines2 lines3).keys := by
  unfold run_dedup
  exact dedup_loop_keys_backend_indep d bc bc2 ⟨bin, hix, b1⟩ ⟨bin, hix, b2⟩ rfl rfl
    _ _ _ rfl rfl rfl rfl rfl rfl rfl

/-- Claim C9: the pre-scan counts the quartets of the first read stream as
its total line count divided by four, discarding an incomplete trailing
quartet; for the probabilistic backend this count and the fixed
false-positive probability are turned into the internal sizing once, before
processing, and the sizing is identical at every observation point of the
run — never recomputed. -/
theorem prescan_bloom_sizing_fixed (d : String → String)
    (bc : List String → String → Bool) (cfg : Config)
    (lines1 lines2 lines3 : List String) (hb : cfg.backend = Backend.bloom) :
    (∀ fuel : Nat,
      (dedup_loop d bc cfg fuel (init_state cfg lines1 lines2 lines3)).bloomSizing =
        some (compute_optimal_parameters
          { projected_element_count := count_fastq_records lines1,
            false_positive_probability := false_positive_probability_default })) ∧
    (∀ q extra : List String, q.length % 4 = 0 → extra.length < 4 →
      count_fastq_records (q ++ extra) = q.length / 4) := by
  constructor
  · intro fuel
    rw [dedup_loop_bloomSizing]
    simp [init_state, hb]
  · intro q extra hq hex
    unfold count_fastq_records
    simp only [List.length_append]
    omega

/-- Witness for the C9 theorem at a concrete bloom-backend run: one quartet
in the first stream, checked at observation point 5, plus a pre-scan count
on a stream with a one-line incomplete trailing record. -/
theorem prescan_bloom_sizing_fixed_witness :
    ((dedup_loop id (fun _ _ => false) ⟨false, false, Backend.bloom⟩ 5
        (init_state ⟨false, false, Backend.bloom⟩ ["a", "b", "c", "e"] [] [])).bloomSizing =
      some (compute_optimal_parameters
        { projected_element_count := count_fastq_records ["a", "b", "c", "e"],
          false_positive_probability := false_positive_probability_default })) ∧
    count_fastq_records (["a", "b", "c", "e"] ++ ["x"]) = ["a", "b", "c", "e"].length / 4 :=
  ⟨(prescan_bloom_sizing_fixed id (fun _ _ => false) ⟨false, false, Backend.bloom⟩
      ["a", "b", "c", "e"] [] [] rfl).1 5,
   (prescan_bloom_sizing_fixed id (fun _ _ => false) ⟨false, false, Backend.bloom⟩
      ["a", "b", "c", "e"] [] [] rfl).2 ["a", "b", "c", "e"] ["x"] (by decide) (by decide)⟩

/-- Claim C10: in external-index mode, when the index stream holds a single
quartet and the mandatory streams hold arbitrarily many, processing does
not stop when the index stream reaches EndOfStream: every pair of the
mandatory streams is still processed (min of the two quartet counts), the
failed index reads are ignored, and every derived fingerprint — in
particular each one after the index EndOfStream — reuses the sequence line
of the previously read index record. -/
theorem index_eof_reuses_stale_record (d : String → String)
    (bc : List String → String → Bool) (cfg : Config)
    (lines1 lines2 : List String) (i1 i2 i3 i4 : String)
    (hix : cfg.has_index = true) :
    (run_dedup d bc cfg lines1 lines2 [i1, i2, i3, i4]).processed =
      min (count_fastq_records lines1) (count_fastq_records lines2) ∧
    (run_dedup d bc cfg lines1 lines2 [i1, i2, i3, i4]).keys =
      List.zipWith (fun q1 q2 => d (i2 ++ q1.seq ++ q2.seq))
        (quartets lines1) (quartets lines2) := by
  constructor
  · rw [run_dedup, dedup_loop_processed d bc cfg _ _ (by simp [init_state])]
    simp [init_state, count_fastq_records]
  · by_cases h1 : 4 ≤ lines1.length
    · by_cases h2 : 4 ≤ lines2.length
      · obtain ⟨a, b, c, e, t1, hf1⟩ := list_four_split lines1 h1
        obtain ⟨g, hg, i, j, t2, hf2⟩ := list_four_split lines2 h2
        subst hf1
        subst hf2
        rw [run_dedup]
        rw [show ((a :: b :: c :: e :: t1 : List String).length + 1) = (t1.length + 4) + 1
          from by simp]
        have hF1 : (init_state cfg (a :: b :: c :: e :: t1) (g :: hg :: i :: j :: t2)
            [i1, i2, i3, i4]).f1 = a :: b :: c :: e :: t1 := rfl
        have hF2 : (init_state cfg (a :: b :: c :: e :: t1) (g :: hg :: i :: j :: t2)
            [i1, i2, i3, i4]).f2 = g :: hg :: i :: j :: t2 := rfl
        rw [dedup_loop_succ_long d bc cfg (t1.length + 4) _ hF1 hF2]
        have hdki : derive_key d cfg ⟨a, b, c, e⟩ ⟨g, hg, i, j⟩
            (init_state cfg (a :: b :: c :: e :: t1) (g :: hg :: i :: j :: t2)
              [i1, i2, i3, i4]).f3
            (init_state cfg (a :: b :: c :: e :: t1) (g :: hg :: i :: j :: t2)
              [i1, i2, i3, i4]).r3 =
            (d (i2 ++ b ++ hg), ⟨i1, i2, i3, i4⟩, []) := by
          simp [init_state, derive_key, hix, read_fastq_record]
        rw [hdki]
        obtain ⟨hkeys, hr3k, hf3k⟩ :=
          dedup_loop_keys_index_exhausted d bc cfg hix (t1.length + 4)
            (next_state
              (init_state cfg (a :: b :: c :: e :: t1) (g :: hg :: i :: j :: t2)
                [i1, i2, i3, i4])
              ⟨a, b, c, e⟩ ⟨g, hg, i, j⟩ t1 t2
              (d (i2 ++ b ++ hg), (⟨i1, i2, i3, i4⟩ : FastqRecord), ([] : List String))
              (store_query bc cfg.backend
                (d (i2 ++ b ++ hg), (⟨i1, i2, i3, i4⟩ : FastqRecord), ([] : List String)).1
                (init_state cfg (a :: b :: c :: e :: t1) (g :: hg :: i :: j :: t2)
                  [i1, i2, i3, i4]).seen
                (init_state cfg (a :: b :: c :: e :: t1) (g :: hg :: i :: j :: t2)
                  [i1, i2, i3, i4]).table
                (init_state cfg (a :: b :: c :: e :: t1) (g :: hg :: i :: j :: t2)
                  [i1, i2, i3, i4]).bloomIns))
            (by simp [next_state]) (by simp [next_state])
        rw [hkeys]
        simp [next_state, init_state, quartets_cons]
      · rw [run_dedup]
        rw [dedup_loop_succ_stop d bc cfg lines1.length _
          (Or.inr (by simp [init_state]; omega))]
        have hq2 : quartets lines2 = [] := quartets_short lines2 (by omega)
        by_cases hrd : (read_fastq_record lines1 FastqRecord.empty).1 = true <;>
          simp [hrd, init_state, hq2]
    · rw [run_dedup]
      rw [dedup_loop_succ_stop d bc cfg lines1.length _
        (Or.inl (by simp [init_state]; omega))]
      have hq1 : quartets lines1 = [] := quartets_short lines1 (by omega)
      by_cases hrd : (read_fastq_record lines1 FastqRecord.empty).1 = true <;>
        simp [hrd, init_state, hq1]

/-- Witness for the C10 theorem: index mode with a one-quartet index stream
and two quartets in each mandatory stream. -/
theorem index_eof_reuses_stale_record_witness :
    (run_dedup id (fun _ _ => false) ⟨false, true, Backend.memory⟩
        ["a1", "S1", "+", "q", "a2", "S2", "+", "q"]
        ["b1", "T1", "+", "q", "b2", "T2", "+", "q"]
        ["i1", "X", "+", "q"]).processed =
      min (count_fastq_records ["a1", "S1", "+", "q", "a2", "S2", "+", "q"])
        (count_fastq_records ["b1", "T1", "+", "q", "b2", "T2", "+", "q"]) ∧
    (run_dedup id (fun _ _ => false) ⟨false, true, Backend.memory⟩
        ["a1", "S1", "+", "q", "a2", "S2", "+", "q"]
        ["b1", "T1", "+", "q", "b2", "T2", "+", "q"]
        ["i1", "X", "+", "q"]).keys =
      List.zipWith (fun q1 q2 => id ("X" ++ q1.seq ++ q2.seq))
        (quartets ["a1", "S1", "+", "q", "a2", "S2", "+", "q"])
        (quartets ["b1", "T1", "+", "q", "b2", "T2", "+", "q"]) :=
  index_eof_reuses_stale_record id (fun _ _ => false) ⟨false, true, Backend.memory⟩
    ["a1", "S1", "+", "q", "a2", "S2", "+", "q"]
    ["b1", "T1", "+", "q", "b2", "T2", "+", "q"] "i1" "X" "+" "q" rfl

/-- Claim C5: in plain mode (neither barcode-in-name nor an index stream)
the fingerprint of every pair is the digest of the concatenated sequence
lines of read1 and read2; and for exactly two pairs whose two reads have
identical sequence content, under either exact backend, the first pair is
written, the second is flagged Duplicate, and the final counters are
written = 1, duplicates = 1, processed = 2. -/
theorem plain_mode_keys_and_scenario_a (d : String → String)
    (bc : List String → String → Bool) (cfg : Config)
    (hbn : cfg.barcode_in_name = false) (hni : cfg.has_index = false) :
    (∀ lines1 lines2 lines3 : List String,
      (run_dedup d bc cfg lines1 lines2 lines3).keys = pair_keys d lines1 lines2) ∧
    (∀ hx : cfg.backend = Backend.memory ∨ cfg.backend = Backend.sqlite,
     ∀ (h1 s p1 u1 h1b p1b u1b h2 t p2 u2 h2b p2b u2b : String)
       (lines3 : List String),
      (run_dedup d bc cfg [h1, s, p1, u1, h1b, s, p1b, u1b]
          [h2, t, p2, u2, h2b, t, p2b, u2b] lines3).written = 1 ∧
      (run_dedup d bc cfg [h1, s, p1, u1, h1b, s, p1b, u1b]
          [h2, t, p2, u2, h2b, t, p2b, u2b] lines3).dup = 1 ∧
      (run_dedup d bc cfg [h1, s, p1, u1, h1b, s, p1b, u1b]
          [h2, t, p2, u2, h2b, t, p2b, u2b] lines3).processed = 2 ∧
      (run_dedup d bc cfg [h1, s, p1, u1, h1b, s, p1b, u1b]
          [h2, t, p2, u2, h2b, t, p2b, u2b] lines3).out1 =
        [{ id := h1, seq := s, plus := p1, qual := u1 }] ∧
      (run_dedup d bc cfg [h1, s, p1, u1, h1b, s, p1b, u1b]
          [h2, t, p2, u2, h2b, t, p2b, u2b] lines3).out2 =
        [{ id := h2, seq := t, plus := p2, qual := u2 }]) := by
  constructor
  · intro lines1 lines2 lines3
    rw [run_dedup, dedup_loop_keys_plain d bc cfg hni _ _ (by simp [init_state])]
    simp [init_state]
  · intro hx h1 s p1 u1 h1b p1b u1b h2 t p2 u2 h2b p2b u2b lines3
    rcases hx with hb | hb <;>
      refine ⟨?_, ?_, ?_, ?_, ?_⟩ <;>
        simp [run_dedup, init_state, dedup_loop, read_fastq_record, derive_key,
          hni, store_query, hb, next_state]

/-- Witness for the C5 theorem: Scenario A at a concrete input with the
memory backend. -/
theorem plain_mode_keys_and_scenario_a_witness :
    (run_dedup id (fun _ _ => false) ⟨false, false, Backend.memory⟩
        ["@a", "ACGT", "+", "II", "@b", "ACGT", "+", "II"]
        ["@c", "GGGG", "+", "II", "@d", "GGGG", "+", "II"] []).written = 1 ∧
    (run_dedup id (fun _ _ => false) ⟨false, false, Backend.memory⟩
        ["@a", "ACGT", "+", "II", "@b", "ACGT", "+", "II"]
        ["@c", "GGGG", "+", "II", "@d", "GGGG", "+", "II"] []).dup = 1 ∧
    (run_dedup id (fun _ _ => false) ⟨false, false, Backend.memory⟩
        ["@a", "ACGT", "+", "II", "@b", "ACGT", "+", "II"]
        ["@c", "GGGG", "+", "II", "@d", "GGGG", "+", "II"] []).processed = 2 ∧
    (run_dedup id (fun _ _ => false) ⟨false, false, Backend.memory⟩
        ["@a", "ACGT", "+", "II", "@b", "ACGT", "+", "II"]
        ["@c", "GGGG", "+", "II", "@d", "GGGG", "+", "II"] []).out1 =
      [{ id := "@a", seq := "ACGT", plus := "+", qual := "II" }] ∧
    (run_dedup id (fun _ _ => false) ⟨false, false, Backend.memory⟩
        ["@a", "ACGT", "+", "II", "@b", "ACGT", "+", "II"]
        ["@c", "GGGG", "+", "II", "@d", "GGGG", "+", "II"] []).out2 =
      [{ id := "@c", seq := "GGGG", plus := "+", qual := "II" }] :=
  (plain_mode_keys_and_scenario_a id (fun _ _ => false) ⟨false, false, Backend.memory⟩
    rfl rfl).2 (Or.inl rfl) "@a" "ACGT" "+" "II" "@b" "+" "II"
    "@c" "GGGG" "+" "II" "@d" "+" "II" []

/-- Claim C1 (code defect, evaluated): with `--barcode-in-name` set and no
index stream, the statement following the barcode branch is a separate
`if`, so its `else` overwrites the barcode key with the plain key.  At this
input the two pairs carry distinct name-embedded barcodes (`AAAA`, `TTTT`),
yet both fingerprints equal the plain digest of the sequences, not the
barcode-prefixed digest the specification prescribes, and the second pair
is flagged Duplicate and dropped instead of being written as Unique. -/
theorem barcode_in_name_key_overwritten :
    extract_barcode_from_name "@r1:AAAA" = "AAAA" ∧
    extract_barcode_from_name "@r2:TTTT" = "TTTT" ∧
    (run_dedup id (fun _ _ => false) ⟨true, false, Backend.memory⟩
        ["@r1:AAAA", "ACGT", "+", "II", "@r2:TTTT", "ACGT", "+", "II"]
        ["@x1", "GGGG", "+", "II", "@x2", "GGGG", "+", "II"] []).keys =
      ["ACGTGGGG", "ACGTGGGG"] ∧
    (run_dedup id (fun _ _ => false) ⟨true, false, Backend.memory⟩
        ["@r1:AAAA", "ACGT", "+", "II", "@r2:TTTT", "ACGT", "+", "II"]
        ["@x1", "GGGG", "+", "II", "@x2", "GGGG", "+", "II"] []).written = 1 ∧
    (run_dedup id (fun _ _ => false) ⟨true, false, Backend.memory⟩
        ["@r1:AAAA", "ACGT", "+", "II", "@r2:TTTT", "ACGT", "+", "II"]
        ["@x1", "GGGG", "+", "II", "@x2", "GGGG", "+", "II"] []).dup = 1 ∧
    "ACGTGGGG" ≠ id ("AAAA" ++ "ACGT" ++ "GGGG") := by
  decide

/-- Claim C3 counterexample: `SQLITE_IOERR` is an unexpected step error —
neither success nor the uniqueness-constraint signal — yet
`SQLiteStore::is_unique` returns a Duplicate verdict for it instead of
aborting: the failure is silently mapped to a result. -/
theorem sqlite_step_error_mapped_to_duplicate :
    SQLITE_IOERR ≠ SQLITE_DONE ∧ SQLITE_IOERR ≠ SQLITE_CONSTRAINT ∧
    SQLiteStore.is_unique SQLITE_OK SQLITE_IOERR = Except.ok false :=
  ⟨by decide, by decide, rfl⟩

/-- Claim C3 as amended: only a prepare failure is fatal (the thrown
exception aborts the run with nonzero exit, and no retry is attempted);
once prepare succeeds, every step result other than SQLITE_DONE — the
expected constraint violation and unexpected errors alike — is mapped to
the Duplicate verdict, never to Unique and never to an abort. -/
theorem sqlite_is_unique_error_behavior (prc rc : Nat) :
    (prc ≠ SQLITE_OK →
      SQLiteStore.is_unique prc rc = Except.error "SQLite prepare failed") ∧
    (prc = SQLITE_OK → rc ≠ SQLITE_DONE →
      SQLiteStore.is_unique prc rc = Except.ok false) ∧
    (prc = SQLITE_OK → rc = SQLITE_DONE →
      SQLiteStore.is_unique prc rc = Except.ok true) := by
  refine ⟨fun h => ?_, fun h1 h2 => ?_, fun h1 h2 => ?_⟩ <;>
    simp [SQLiteStore.is_unique, *]

/-- Witness for the amended C3 theorem: a failed prepare, an unexpected
step error, and a clean insert. -/
theorem sqlite_is_unique_error_behavior_witness :
    SQLiteStore.is_unique 1 101 = Except.error "SQLite prepare failed" ∧
    SQLiteStore.is_unique 0 10 = Except.ok false ∧
    SQLiteStore.is_unique 0 101 = Except.ok true :=
  ⟨(sqlite_is_unique_error_behavior 1 101).1 (by decide),
   (sqlite_is_unique_error_behavior 0 10).2.1 rfl (by decide),
   (sqlite_is_unique_error_behavior 0 101).2.2 rfl rfl⟩

/-- Under normal operation the pipeline's sqlite branch agrees with
`SQLiteStore::is_unique` fed the step result of the attempted unique
insertion. -/
theorem store_query_sqlite_matches_is_unique (bc : List String → String → Bool)
    (key : String) (seen table bloomIns : List String) :
    @Except.ok String Bool (store_query bc Backend.sqlite key seen table bloomIns).1 =
      SQLiteStore.is_unique SQLITE_OK (sqlite_step_result table key) := by
  by_cases hk : key ∈ table <;>
    simp [store_query, SQLiteStore.is_unique, sqlite_step_result, hk,
      SQLITE_OK, SQLITE_DONE, SQLITE_CONSTRAINT]

/-- Claim C4 counterexample: both inputs open fine, no index is configured,
but the first output stream cannot be opened — `main` does not abort,
because the results of the two output `gzopen` calls are never tested
(dedup.cpp lines 188-189). -/
theorem output_open_failure_not_fatal :
    (OpenEnv.mk "r1.fq.gz" "r2.fq.gz" "" true true true false true).out1_ok = false ∧
    startup_exit (OpenEnv.mk "r1.fq.gz" "r2.fq.gz" "" true true true false true) = false := by
  decide

/-- Claim C4 as amended: a failed open of either mandatory input stream, or
of a configured index stream, exits before any record is processed; and
when the required paths are present and those three opens succeed, startup
proceeds whatever the output-stream opens did. -/
theorem input_and_index_open_failures_fatal (e : OpenEnv) :
    (e.f1_ok = false ∨ e.f2_ok = false ∨ (e.index_file ≠ "" ∧ e.f3_ok = false) →
      startup_exit e = true) ∧
    (e.read1_file ≠ "" → e.read2_file ≠ "" → e.f1_ok = true → e.f2_ok = true →
      (e.index_file ≠ "" → e.f3_ok = true) → startup_exit e = false) := by
  constructor
  · intro h
    unfold startup_exit
    split_ifs with ha hb hc
    · rfl
    · rfl
    · rfl
    · rcases h with h | h | hpair
      · exact absurd (Or.inl h) hb
      · exact absurd (Or.inr h) hb
      · exact absurd hpair hc
  · intro h1 h2 hf1 hf2 hf3
    unfold startup_exit
    split_ifs with ha hb hc
    · rcases ha with ha | ha
      · exact absurd ha h1
      · exact absurd ha h2
    · rcases hb with hb | hb
      · rw [hf1] at hb; cases hb
      · rw [hf2] at hb; cases hb
    · rcases hc with ⟨hi, h3⟩
      rw [hf3 hi] at h3
      cases h3
    · rfl

/-- Witness for the amended C4 theorem: a failed read1 open aborts; with
all three checked opens succeeding, startup proceeds even though an output
open failed. -/
theorem input_and_index_open_failures_fatal_witness :
    startup_exit (OpenEnv.mk "r1.fq.gz" "r2.fq.gz" "" false true true true true) = true ∧
    startup_exit (OpenEnv.mk "r1.fq.gz" "r2.fq.gz" "" true true true false false) = false :=
  ⟨(input_and_index_open_failures_fatal _).1 (Or.inl rfl),
   (input_and_index_open_failures_fatal _).2 (by decide) (by decide) rfl rfl
     (fun h => absurd rfl h)⟩

/-- Claim C7 counterexample: in external-index mode the re-deduplication of
a run's output is not duplicate-free.  Index sequences are A, A, B and all
read sequences coincide; the first run flags pair 2 as a duplicate of
pair 1 and writes pairs 1 and 3 (with distinct fingerprints AZW and BZW).
Re-deduplicating the two output streams with a fresh store of the same
exact kind and the same index stream realigns the surviving pairs with
index records 1 and 2 — both with sequence A — so the second run flags one
duplicate instead of zero. -/
theorem index_mode_rededup_flags_duplicate :
    (run_dedup id (fun _ _ => false) ⟨false, true, Backend.memory⟩
        ["a1", "Z", "+", "q", "a2", "Z", "+", "q", "a3", "Z", "+", "q"]
        ["b1", "W", "+", "q", "b2", "W", "+", "q", "b3", "W", "+", "q"]
        ["i1", "A", "+", "q", "i2", "A", "+", "q", "i3", "B", "+", "q"]).writtenKeys =
      ["AZW", "BZW"] ∧
    (run_dedup id (fun _ _ => false) ⟨false, true, Backend.memory⟩
        (flatten_records
          (run_dedup id (fun _ _ => false) ⟨false, true, Backend.memory⟩
            ["a1", "Z", "+", "q", "a2", "Z", "+", "q", "a3", "Z", "+", "q"]
            ["b1", "W", "+", "q", "b2", "W", "+", "q", "b3", "W", "+", "q"]
            ["i1", "A", "+", "q", "i2", "A", "+", "q", "i3", "B", "+", "q"]).out1)
        (flatten_records
          (run_dedup id (fun _ _ => false) ⟨false, true, Backend.memory⟩
            ["a1", "Z", "+", "q", "a2", "Z", "+", "q", "a3", "Z", "+", "q"]
            ["b1", "W", "+", "q", "b2", "W", "+", "q", "b3", "W", "+", "q"]
            ["i1", "A", "+", "q", "i2", "A", "+", "q", "i3", "B", "+", "q"]).out2)
        ["i1", "A", "+", "q", "i2", "A", "+", "q", "i3", "B", "+", "q"]).dup = 1 := by
  decide

/-- Claim C7 as amended: with an exact backend (memory or sqlite, stores
starting empty), no two written pairs of a run share a fingerprint — in
every mode; and when no external index stream is configured,
re-deduplicating the run's two output streams with a fresh store of the
same kind flags zero duplicates and writes every pair back (idempotence).
The no-index restriction on the idempotence half is forced by the
counterexample above: with an index stream a pair's fingerprint depends on
its alignment with the index records, which shifts once pairs are removed. -/
theorem exact_backend_nodup_and_idempotent (d : String → String)
    (bc : List String → String → Bool) (cfg : Config)
    (lines1 lines2 lines3 : List String)
    (hx : cfg.backend = Backend.memory ∨ cfg.backend = Backend.sqlite) :
    (run_dedup d bc cfg lines1 lines2 lines3).writtenKeys.Nodup ∧
    (cfg.has_index = false →
      (run_dedup d bc cfg
          (flatten_records (run_dedup d bc cfg lines1 lines2 lines3).out1)
          (flatten_records (run_dedup d bc cfg lines1 lines2 lines3).out2)
          lines3).dup = 0 ∧
      (run_dedup d bc cfg
          (flatten_records (run_dedup d bc cfg lines1 lines2 lines3).out1)
          (flatten_records (run_dedup d bc cfg lines1 lines2 lines3).out2)
          lines3).written =
        (run_dedup d bc cfg
          (flatten_records (run_dedup d bc cfg lines1 lines2 lines3).out1)
          (flatten_records (run_dedup d bc cfg lines1 lines2 lines3).out2)
          lines3).processed) := by
  have hnd : (run_dedup d bc cfg lines1 lines2 lines3).writtenKeys.Nodup := by
    rcases hx with hb | hb
    · exact (dedup_loop_nodup_mem d bc cfg hb (lines1.length + 1) _
        (by simp [init_state]) (by simp [init_state])).1
    · exact (dedup_loop_nodup_sqlite d bc cfg hb (lines1.length + 1) _
        (by simp [init_state]) (by simp [init_state])).1
  refine ⟨hnd, fun hni => ?_⟩
  have hzip := dedup_loop_writtenKeys_zip d bc cfg hni (lines1.length + 1)
    (init_state cfg lines1 lines2 lines3) (by simp [init_state]) (by simp [init_state])
  have hpk2 : pair_keys d
      (flatten_records (run_dedup d bc cfg lines1 lines2 lines3).out1)
      (flatten_records (run_dedup d bc cfg lines1 lines2 lines3).out2) =
      (run_dedup d bc cfg lines1 lines2 lines3).writtenKeys := by
    unfold pair_keys
    rw [quartets_flatten_records, quartets_flatten_records]
    exact (hzip.2).symm
  have hdup : (run_dedup d bc cfg
      (flatten_records (run_dedup d bc cfg lines1 lines2 lines3).out1)
      (flatten_records (run_dedup d bc cfg lines1 lines2 lines3).out2)
      lines3).dup = 0 := by
    rcases hx with hb | hb
    · rw [run_dedup]
      rw [dedup_loop_dup_const_mem d bc cfg hb hni _ _
        (by simpa [init_state, hpk2] using hnd) (by simp [init_state, hpk2])]
      simp [init_state]
    · rw [run_dedup]
      rw [dedup_loop_dup_const_sqlite d bc cfg hb hni _ _
        (by simpa [init_state, hpk2] using hnd) (by simp [init_state, hpk2])]
      simp [init_state]
  refine ⟨hdup, ?_⟩
  have hceq := dedup_loop_counter_eq d bc cfg
    ((flatten_records (run_dedup d bc cfg lines1 lines2 lines3).out1).length + 1)
    (init_state cfg
      (flatten_records (run_dedup d bc cfg lines1 lines2 lines3).out1)
      (flatten_records (run_dedup d bc cfg lines1 lines2 lines3).out2)
      lines3) (by simp [init_state])
  rw [run_dedup] at hdup ⊢
  omega

/-- Witness for the amended C7 theorem: one distinct pair per stream,
memory backend, with the no-index premise of the idempotence half
discharged at this configuration. -/
theorem exact_backend_nodup_and_idempotent_witness :
    (run_dedup id (fun _ _ => false) ⟨false, false, Backend.memory⟩
        ["a", "S", "+", "q"] ["b", "T", "+", "q"] []).writtenKeys.Nodup ∧
    (run_dedup id (fun _ _ => false) ⟨false, false, Backend.memory⟩
        (flatten_records (run_dedup id (fun _ _ => false) ⟨false, false, Backend.memory⟩
          ["a", "S", "+", "q"] ["b", "T", "+", "q"] []).out1)
        (flatten_records (run_dedup id (fun _ _ => false) ⟨false, false, Backend.memory⟩
          ["a", "S", "+", "q"] ["b", "T", "+", "q"] []).out2)
        []).dup = 0 ∧
    (run_dedup id (fun _ _ => false) ⟨false, false, Backend.memory⟩
        (flatten_records (run_dedup id (fun _ _ => false) ⟨false, false, Backend.memory⟩
          ["a", "S", "+", "q"] ["b", "T", "+", "q"] []).out1)
        (flatten_records (run_dedup id (fun _ _ => false) ⟨false, false, Backend.memory⟩
          ["a", "S", "+", "q"] ["b", "T", "+", "q"] []).out2)
        []).written =
      (run_dedup id (fun _ _ => false) ⟨false, false, Backend.memory⟩
        (flatten_records (run_dedup id (fun _ _ => false) ⟨false, false, Backend.memory⟩
          ["a", "S", "+", "q"] ["b", "T", "+", "q"] []).out1)
        (flatten_records (run_dedup id (fun _ _ => false) ⟨false, false, Backend.memory⟩
          ["a", "S", "+", "q"] ["b", "T", "+", "q"] []).out2)
        []).processed :=
  ⟨(exact_backend_nodup_and_idempotent id (fun _ _ => false) ⟨false, false, Backend.memory⟩
      ["a", "S", "+", "q"] ["b", "T", "+", "q"] [] (Or.inl rfl)).1,
   (exact_backend_nodup_and_idempotent id (fun _ _ => false) ⟨false, false, Backend.memory⟩
      ["a", "S", "+", "q"] ["b", "T", "+", "q"] [] (Or.inl rfl)).2 rfl⟩
